import Mathlib

/-
Shallow embedding of the distro-seed orchestrator (main.go) in Lean 4.

The repository is a Go program that seeds a configured set of torrents:
it acquires torrent metadata (from a .torrent URL or a magnet link),
hands each to the anacrolix/torrent engine, accumulates upload totals
in a small stats file across restarts, periodically re-announces
under-peered torrents, and shuts down on a cancellation signal.

The source history contains two variants of the stats flush
(logCurrentTorrentStatus): a delta-tracking variant that keeps a
previousUploads baseline map, and a re-read variant that re-reads the
stats file each tick and adds the raw session counters.  Both are
embedded below (V2 and V3 respectively, after their position in the
source file).

External collaborators (the HTTP client, the metainfo decoder, the
swarm engine) are modelled as oracle parameters: the orchestrator only
observes their results, and the spec places their internals out of
scope.
-/

namespace DistroSeed

/- ------------------------------------------------------------------ -/
/- Strings and paths                                                   -/
/- ------------------------------------------------------------------ -/

/-- White-space test used by strings.TrimSpace (restricted to the ASCII
white space that can appear in a flag or environment value). -/
def isSpaceChar (c : Char) : Bool :=
  c == ' ' || c == '\t' || c == '\n' || c == '\r'

/-- strings.TrimSpace: drop leading and trailing white space. -/
def trimSpace (s : String) : String :=
  String.mk (((s.toList.dropWhile isSpaceChar).reverse.dropWhile isSpaceChar).reverse)

/-- Helper for strings.Split with a one-character separator: walk the
characters accumulating the current field. -/
def splitCharAux (sep : Char) : List Char → List Char → List String
  | [], acc => [String.mk acc.reverse]
  | c :: rest, acc =>
    if c = sep then String.mk acc.reverse :: splitCharAux sep rest []
    else splitCharAux sep rest (c :: acc)

/-- strings.Split s sep for a one-character separator.  As in Go,
splitting the empty string yields one empty field, never an empty
list. -/
def stringSplit (s : String) (sep : Char) : List String :=
  splitCharAux sep s.toList []

/-- parseTorrentURLs from main.go: strings.Split on a comma, then
strings.TrimSpace each entry. -/
def parseTorrentURLs (input : String) : List String :=
  (stringSplit input ',').map trimSpace

/-- Character-list core of strings.HasPrefix. -/
def listStarts : List Char → List Char → Bool
  | _, [] => true
  | [], _ :: _ => false
  | c :: cs, p :: ps => c == p && listStarts cs ps

/-- strings.HasPrefix s pre: does s start with pre. -/
def strStarts (s pre : String) : Bool :=
  listStarts s.toList pre.toList

/-- filepath.Base from the Go standard library, as used by addTorrent to
derive the cache file name: empty path gives ".", a path of only
slashes gives "/", otherwise the final path segment after stripping
trailing slashes. -/
def filepathBase (p : String) : String :=
  if p = "" then "."
  else
    let cs := (p.toList.reverse.dropWhile (fun c => c = '/')).reverse
    if cs = [] then "/"
    else String.mk ((cs.reverse.takeWhile (fun c => c ≠ '/')).reverse)

/-- filepath.Join dir base, in the simple two-component form addTorrent
uses (dir carries no trailing slash in the embedding). -/
def filepathJoin (dir base : String) : String :=
  dir ++ "/" ++ base

/- ------------------------------------------------------------------ -/
/- The stats file: read and write                                      -/
/- ------------------------------------------------------------------ -/

/-- Leading decimal digits of a character list, or none when the list
does not start with a digit.  Mirrors the digit-consuming core of
fmt.Fscanf with a %d verb. -/
def scanDigits (cs : List Char) : Option Nat :=
  match cs.takeWhile Char.isDigit with
  | [] => none
  | ds => some (ds.foldl (fun a c => a * 10 + (c.toNat - 48)) 0)

/-- fmt.Fscanf file %d on the file contents: skip leading white space,
accept an optional sign, then require at least one decimal digit;
anything else is a scan error (modelled as none). -/
def fscanfInt (s : String) : Option Int :=
  let cs := s.toList.dropWhile (fun c => c = ' ' ∨ c = '\t' ∨ c = '\n' ∨ c = '\r')
  match cs with
  | '-' :: rest => (scanDigits rest).map (fun n => -(Int.ofNat n))
  | '+' :: rest => (scanDigits rest).map Int.ofNat
  | _ => (scanDigits cs).map Int.ofNat

/-- readTotalUploaded from main.go.  The stats file state is an
Option String: none models os.Open failing (file missing), some s a
file with contents s.  A missing file or a failed Fscanf both log a
warning and return 0; there is no fatal path. -/
def readTotalUploaded (statsFile : Option String) : Int :=
  match statsFile with
  | none => 0
  | some s =>
    match fscanfInt s with
    | none => 0
    | some n => n

/-- Outcome of one attempt to persist the stats file: os.Create can
fail, fmt.Fprintf can fail, or both succeed. -/
inductive WriteOutcome
  | createFails
  | printfFails
  | ok
deriving DecidableEq

/-- The write path at the end of logCurrentTorrentStatus: os.Create on
the stats file itself (which truncates any existing file to empty),
then fmt.Fprintf of the decimal value.  If os.Create fails the function
returns with the prior file intact; if os.Create succeeds but the write
fails, the file has already been truncated and is left empty.  There is
no temporary file and no rename. -/
def writeStatsFile (prior : Option String) (value : Int) (wo : WriteOutcome) :
    Option String :=
  match wo with
  | WriteOutcome.createFails => prior
  | WriteOutcome.printfFails => some ""
  | WriteOutcome.ok => some (toString value)

/-- Write semantics the spec describes for the flush: the new value is
written to a temporary location and atomically renamed over the prior
record, so any failure leaves the prior record intact.  Stated here
only to be compared against writeStatsFile, which is what the code
does. -/
def atomicReplaceStats (prior : Option String) (value : Int) (wo : WriteOutcome) :
    Option String :=
  match wo with
  | WriteOutcome.ok => some (toString value)
  | _ => prior

/- ------------------------------------------------------------------ -/
/- The stats ledger: the two flush variants in the source              -/
/- ------------------------------------------------------------------ -/

/-- Go map read with the zero default, as previousUploads[hash] behaves
in logCurrentTorrentStatus: a missing key reads as 0. -/
def mapGet (m : List (String × Int)) (k : String) : Int :=
  match m.find? (fun e => e.1 == k) with
  | some e => e.2
  | none => 0

/-- Go map assignment previousUploads[hash] = uploaded.  The map is
modelled as an association list read through mapGet, which takes the
first binding, so prepending the new binding shadows any older one:
observationally this is exactly replacement. -/
def mapPut (m : List (String × Int)) (k : String) (v : Int) :
    List (String × Int) :=
  (k, v) :: m

/-- State threaded through the delta-tracking flush
(logCurrentTorrentStatus with a previousUploads argument): the
in-memory grand total (initialized at startup from readTotalUploaded),
the per-torrent baseline map, and the stats file contents. -/
structure LedgerV2 where
  totalUploaded : Int
  previousUploads : List (String × Int)
  statsFile : Option String
deriving DecidableEq

/-- The loop body of the delta-tracking flush: for each torrent
(identified by its info-hash hex string, paired with the engine's
session counter BytesWrittenData), add the increment over the recorded
baseline to sessionUpload and update the baseline map. -/
def sessionFold (torrents : List (String × Int))
    (start : Int × List (String × Int)) : Int × List (String × Int) :=
  torrents.foldl
    (fun acc t =>
      (acc.1 + (t.2 - mapGet acc.2 t.1), mapPut acc.2 t.1 t.2))
    start

/-- logCurrentTorrentStatus, delta-tracking variant (main.go lines
395-436): compute the session upload as the sum of per-torrent
increments over previousUploads, add it to the in-memory grand total,
and write the grand total to the stats file. -/
def logCurrentTorrentStatusV2 (torrents : List (String × Int))
    (st : LedgerV2) (wo : WriteOutcome) : LedgerV2 :=
  let r := sessionFold torrents (0, st.previousUploads)
  let newTotal := st.totalUploaded + r.1
  { totalUploaded := newTotal
    previousUploads := r.2
    statsFile := writeStatsFile st.statsFile newTotal wo }

/-- A run of delta-tracking flush ticks, each with successful writes:
main.go initializes the ledger by reading the persisted total T once at
startup, with an empty baseline map. -/
def runV2 (T : Int) (statsFile0 : Option String)
    (ticks : List (List (String × Int))) : LedgerV2 :=
  ticks.foldl (fun st L => logCurrentTorrentStatusV2 L st WriteOutcome.ok)
    { totalUploaded := T, previousUploads := [], statsFile := statsFile0 }

/-- logCurrentTorrentStatus, re-read variant (main.go lines 686-713):
re-read the persisted total from the stats file, add every torrent's
raw session counter to it, and write the result back. -/
def logCurrentTorrentStatusV3 (torrents : List (String × Int))
    (statsFile : Option String) (wo : WriteOutcome) : Option String :=
  let total := readTotalUploaded statsFile
  let newTotal := torrents.foldl (fun a t => a + t.2) total
  writeStatsFile statsFile newTotal wo

/-- Sum of the engine-reported session counters of a list of torrents:
the U of the restart invariant. -/
def sumCounters (torrents : List (String × Int)) : Int :=
  (torrents.map Prod.snd).sum

/-- Sum of the map entries at a given list of keys. -/
def mapGetSum (m : List (String × Int)) (hs : List String) : Int :=
  (hs.map (mapGet m)).sum

/- ------------------------------------------------------------------ -/
/- Task machines: seedTorrent and the periodic loops                   -/
/- ------------------------------------------------------------------ -/

/-- Events a task can observe: the engine closing the GotInfo channel,
the engine reporting the content fully downloaded, a ticker tick, and
the cancellation context firing. -/
inductive Ev
  | gotInfo
  | contentComplete
  | tick
  | ctxDone
deriving DecidableEq

/-- Control state of seedTorrent: blocked on the GotInfo channel
receive, past it (DownloadAll issued, Seeding logged, blocked on the
ctx.Done receive), or returned. -/
inductive SeedPhase
  | waitingInfo
  | seeding
  | finished
deriving DecidableEq

/-- Visible actions of seedTorrent, in program order. -/
inductive SeedAction
  | downloadAllDirective
  | enterSeeding
  | returned
deriving DecidableEq

/-- One step of seedTorrent (main.go lines 351-358).  The first receive
is on t.GotInfo() alone: while waitingInfo, every event other than
gotInfo (in particular ctxDone) leaves the task blocked.  After
gotInfo the task blocks on ctx.Done() alone, so ctxDone finishes it.
waitForMagnetMetadata (lines 306-311) has the same waitingInfo shape
for its GotInfo receive. -/
def seedStep : SeedPhase → Ev → SeedPhase
  | SeedPhase.waitingInfo, Ev.gotInfo => SeedPhase.seeding
  | SeedPhase.waitingInfo, _ => SeedPhase.waitingInfo
  | SeedPhase.seeding, Ev.ctxDone => SeedPhase.finished
  | SeedPhase.seeding, _ => SeedPhase.seeding
  | SeedPhase.finished, _ => SeedPhase.finished

/-- Actions seedTorrent emits at a step: on gotInfo it calls
t.DownloadAll() (a directive, not a wait) and immediately logs Seeding;
on ctxDone past that point it returns. -/
def seedOut : SeedPhase → Ev → List SeedAction
  | SeedPhase.waitingInfo, Ev.gotInfo =>
    [SeedAction.downloadAllDirective, SeedAction.enterSeeding]
  | SeedPhase.seeding, Ev.ctxDone => [SeedAction.returned]
  | _, _ => []

/-- Run seedTorrent over a trace of observed events, collecting the
phase reached and the actions emitted. -/
def seedTrace (tr : List Ev) : SeedPhase × List SeedAction :=
  tr.foldl (fun acc e => (seedStep acc.1 e, acc.2 ++ seedOut acc.1 e))
    (SeedPhase.waitingInfo, [])

/-- Phase seedTorrent reaches on a trace. -/
def seedRun (tr : List Ev) : SeedPhase :=
  tr.foldl seedStep SeedPhase.waitingInfo

/-- One step of either periodic loop (logPeriodicTorrentStatus and
periodicAnnounce): the for/select receives on ctx.Done() and the ticker
together, so a running loop stops on ctxDone and keeps running on a
tick.  The Bool is true while the loop is still running. -/
def loopStep : Bool → Ev → Bool
  | true, Ev.ctxDone => false
  | b, _ => b

/-- Run a periodic loop over a trace of observed events. -/
def loopRun (tr : List Ev) : Bool :=
  tr.foldl loopStep true

/- ------------------------------------------------------------------ -/
/- processTorrents: per-URL acquisition with error isolation           -/
/- ------------------------------------------------------------------ -/

/-- Result the engine-facing acquisition of one source reports back to
the processTorrents loop: an error (from the HTTP fetch, the metainfo
load, or client.AddTorrent/AddMagnet), or a torrent handle. -/
inductive AddOutcome
  | engineError (msg : String)
  | addedJob (id : String)
deriving DecidableEq

/-- What the processTorrents loop does with one URL: log the error and
drop the job, or start the seeding goroutine, or start the
magnet-metadata-wait goroutine. -/
inductive JobEvent
  | loggedError (url msg : String)
  | startedSeed (url id : String)
  | startedMagnetWait (url id : String)
deriving DecidableEq

/-- The body of the processTorrents loop for one URL (main.go lines
284-304): a source with the magnet:? scheme goes to client.AddMagnet
(error: log and continue; success: spawn waitForMagnetMetadata), any
other source goes through addTorrent (error: log and continue; success:
spawn seedTorrent).  The two acquisition paths are oracle parameters:
their outcome for a given URL is all the loop observes. -/
def handleURL (magnetAdd torrentAdd : String → AddOutcome) (url : String) :
    JobEvent :=
  if strStarts url "magnet:?" then
    match magnetAdd url with
    | AddOutcome.engineError msg => JobEvent.loggedError url msg
    | AddOutcome.addedJob id => JobEvent.startedMagnetWait url id
  else
    match torrentAdd url with
    | AddOutcome.engineError msg => JobEvent.loggedError url msg
    | AddOutcome.addedJob id => JobEvent.startedSeed url id

/-- processTorrents: iterate the loop body over the configured URL
list, accumulating what happened to each job.  The loop has no break,
return, or fatal path: it always advances to the next URL. -/
def processTorrents (magnetAdd torrentAdd : String → AddOutcome)
    (urls : List String) : List JobEvent :=
  urls.foldl (fun acc url => acc ++ [handleURL magnetAdd torrentAdd url]) []

/- ------------------------------------------------------------------ -/
/- addTorrent: the on-disk metadata cache                              -/
/- ------------------------------------------------------------------ -/

/-- The observable world addTorrent touches: the download directory as
a path-to-contents map, the URLs fetched over the network (in order),
and the descriptor contents passed to metainfo.LoadFromFile (in
order). -/
structure AcqWorld where
  fs : List (String × String)
  fetchLog : List String
  readLog : List String
deriving DecidableEq

/-- os.Stat existence check / file read on the modelled directory. -/
def lookupFS (fs : List (String × String)) (p : String) : Option String :=
  match fs.find? (fun e => e.1 == p) with
  | some e => some e.2
  | none => none

/-- os.Create followed by a full successful write: the path now holds
exactly the fetched body. -/
def insertFS (fs : List (String × String)) (p v : String) :
    List (String × String) :=
  (p, v) :: fs.filter (fun e => e.1 != p)

/-- The tail of addTorrent once the descriptor bytes are in hand:
metainfo.LoadFromFile on the contents (oracle parseMeta; none is a
malformed descriptor) then client.AddTorrent (oracle engineAccept;
none is an engine rejection).  Either failure makes addTorrent return
an error. -/
def loadAndAdd (parseMeta engineAccept : String → Option String)
    (content : String) : Option String :=
  match parseMeta content with
  | none => none
  | some meta => engineAccept meta

/-- addTorrent (main.go lines 313-349): derive the cache path from the
final path segment of the URL; if the file does not exist, fetch the
URL (http.Get is the oracle httpGet: none is a network failure) and
save the body; then load the saved file and hand the result to the
engine.  Any failure returns none after the world effects already
performed.  Create/write failures after a successful fetch are not
modelled: their error paths return before the load. -/
def addTorrent (httpGet parseMeta engineAccept : String → Option String)
    (w : AcqWorld) (downloadDir url : String) : AcqWorld × Option String :=
  let torrentPath := filepathJoin downloadDir (filepathBase url)
  match lookupFS w.fs torrentPath with
  | some cached =>
    ({ w with readLog := w.readLog ++ [cached] },
     loadAndAdd parseMeta engineAccept cached)
  | none =>
    match httpGet url with
    | none => ({ w with fetchLog := w.fetchLog ++ [url] }, none)
    | some body =>
      ({ fs := insertFS w.fs torrentPath body
         fetchLog := w.fetchLog ++ [url]
         readLog := w.readLog ++ [body] },
       loadAndAdd parseMeta engineAccept body)

/- ------------------------------------------------------------------ -/
/- periodicAnnounce: the health monitor tick                           -/
/- ------------------------------------------------------------------ -/

/-- What periodicAnnounce observes about one torrent: its info-hash
(the job identity), the sampled TotalPeers, and the descriptor's
AnnounceList (a list of tracker tiers). -/
structure JobView where
  infoHash : String
  totalPeers : Nat
  announceList : List (List String)
deriving DecidableEq

/-- Announce requests the health monitor can issue: a tracker
re-announce via t.ModifyTrackers carrying one tier, and a DHT announce
via dhtServer.Announce carrying the job identity and the client's
listening port. -/
inductive AnnounceOp
  | trackerReq (hash : String) (tier : List String)
  | dhtReq (hash : String) (port : Nat)
deriving DecidableEq

/-- The per-torrent body of the periodicAnnounce tick (main.go lines
439-469): only if the sampled peer count is strictly below 10 does the
monitor issue one tracker request per tier of the descriptor's
AnnounceList and one DHT announce per DHT server, each keyed by the
torrent's info-hash and client.LocalPort(). -/
def announceForTorrent (localPort dhtServers : Nat) (t : JobView) :
    List AnnounceOp :=
  if t.totalPeers < 10 then
    t.announceList.map (fun tier => AnnounceOp.trackerReq t.infoHash tier)
      ++ (List.range dhtServers).map (fun _ => AnnounceOp.dhtReq t.infoHash localPort)
  else []

/-- One full tick of periodicAnnounce over every active torrent. -/
def periodicAnnounceTick (localPort dhtServers : Nat) (ts : List JobView) :
    List AnnounceOp :=
  ts.foldl (fun acc t => acc ++ announceForTorrent localPort dhtServers t) []

/- ------------------------------------------------------------------ -/
/- Startup: the no-sources guard                                       -/
/- ------------------------------------------------------------------ -/

/-- How startup can go: log.Fatal on the missing-URL guard, or proceed
to processTorrents with the parsed source list. -/
inductive StartupResult
  | fatalNoSources
  | proceeded (jobs : List String)
deriving DecidableEq

/-- The startup guard in main (main.go lines 219-221): the process
exits fatally exactly when the raw -url / TORRENT_URLS string is empty;
otherwise it proceeds with parseTorrentURLs of that string. -/
def mainStartup (torrentURLs : String) : StartupResult :=
  if torrentURLs = "" then StartupResult.fatalNoSources
  else StartupResult.proceeded (parseTorrentURLs torrentURLs)

/-- Formalization of the claim's words "the configuration provides no
job source at all": no entry of the parsed source list is a non-empty
string.  Stated spec-side, to be compared with the guard the code
actually uses. -/
def specProvidesJobSource (torrentURLs : String) : Bool :=
  (parseTorrentURLs torrentURLs).any (fun u => u != "")

/- ================================================================== -/
/- Theorems                                                            -/
/- ================================================================== -/

/-- C5: reading the persisted stats file when it is missing or
malformed returns a baseline of 0 and never fails fatally (the read is
a total function with no fatal path); reading the unchanged file a
second time again yields 0. -/
theorem readTotalUploaded_missing_or_corrupt (statsFile : Option String)
    (h : statsFile = none ∨ ∃ s, statsFile = some s ∧ fscanfInt s = none) :
    readTotalUploaded statsFile = 0 ∧ readTotalUploaded statsFile = 0 := by
  rcases h with h | ⟨s, hs, hp⟩
  · subst h; exact ⟨rfl, rfl⟩
  · subst hs
    simp [readTotalUploaded, hp]

/-- Witness for C5 at a missing file and at a corrupt file. -/
theorem readTotalUploaded_missing_or_corrupt_witness :
    (readTotalUploaded none = 0 ∧ readTotalUploaded none = 0)
    ∧ (readTotalUploaded (some "corrupt") = 0
        ∧ readTotalUploaded (some "corrupt") = 0) :=
  ⟨readTotalUploaded_missing_or_corrupt none (Or.inl rfl),
   readTotalUploaded_missing_or_corrupt (some "corrupt")
     (Or.inr ⟨"corrupt", rfl, by decide⟩)⟩

/-- C2 counterexample: the flush write is not atomic.  With the prior
record holding "100", a failure of the value write after os.Create has
succeeded leaves the stats file empty: the previously persisted value
is destroyed (a later read yields 0, not 100), contradicting the
claimed temp-file-and-rename semantics. -/
theorem writeStatsFile_not_atomic :
    writeStatsFile (some "100") 150 WriteOutcome.printfFails = some ""
    ∧ some "" ≠ (some "100" : Option String)
    ∧ readTotalUploaded (some "") = 0
    ∧ writeStatsFile (some "100") 150 WriteOutcome.printfFails
        ≠ atomicReplaceStats (some "100") 150 WriteOutcome.printfFails := by
  decide

/-- C2 amended: the flush persists the stats record by truncating the
stats file in place (os.Create) and writing the decimal value.  If
os.Create itself fails the prior record is intact; on a successful
write the new value is persisted; but if the write fails after the
truncation the file is left empty and reads back as 0. -/
theorem writeStatsFile_inplace_semantics (prior : Option String) (v : Int) :
    writeStatsFile prior v WriteOutcome.createFails = prior
    ∧ writeStatsFile prior v WriteOutcome.ok = some (toString v)
    ∧ writeStatsFile prior v WriteOutcome.printfFails = some ""
    ∧ readTotalUploaded (writeStatsFile prior v WriteOutcome.printfFails) = 0 := by
  refine ⟨rfl, rfl, rfl, ?_⟩
  show readTotalUploaded (some "") = 0
  decide

/-- C8 counterexample: a configuration of " , " provides no job source
at all (every parsed entry is empty), yet the startup guard only
checks the raw string against "" and lets the process proceed with two
empty-string jobs instead of failing fatally. -/
theorem mainStartup_sourceless_proceeds :
    specProvidesJobSource " , " = false
    ∧ mainStartup " , " = StartupResult.proceeded ["", ""]
    ∧ mainStartup " , " ≠ StartupResult.fatalNoSources := by
  decide

/-- C8 amended: startup fails fatally, before any job is started,
exactly when the raw source string is empty; every non-empty string
(even one consisting only of separators or white space, which yields
no usable source) proceeds to the parsed job list. -/
theorem mainStartup_guard_iff (s : String) :
    (s = "" → mainStartup s = StartupResult.fatalNoSources)
    ∧ (s ≠ "" → mainStartup s = StartupResult.proceeded (parseTorrentURLs s)) := by
  constructor
  · intro h; simp [mainStartup, h]
  · intro h; simp [mainStartup, h]

/-- Witness for C8 amended at the empty and a non-empty configuration. -/
theorem mainStartup_guard_iff_witness :
    mainStartup "" = StartupResult.fatalNoSources
    ∧ mainStartup "a" = StartupResult.proceeded ["a"] :=
  ⟨(mainStartup_guard_iff "").1 rfl,
   ((mainStartup_guard_iff "a").2 (by decide)).trans (by decide)⟩

/-- Accumulator form of a loop that appends one block of output per
element and never exits early. -/
theorem foldl_append_blocks {α β : Type} (f : α → List β) :
    ∀ (l : List α) (acc : List β),
      l.foldl (fun a x => a ++ f x) acc = acc ++ (l.map f).flatten := by
  intro l
  induction l with
  | nil => intro acc; simp
  | cons x xs ih =>
    intro acc
    simp [List.foldl_cons, ih, List.append_assoc]

/-- C7: at a health-monitor tick, a torrent sampled with exactly the
peer floor of 10 triggers nothing, while a torrent sampled with 9 or
fewer peers triggers one tracker re-announce (a ModifyTrackers
request) per tier of its descriptor's announce list plus one DHT
announce per DHT server, each keyed by the torrent's info-hash and the
client's listening port; and the tick processes every torrent,
concatenating their requests. -/
theorem periodicAnnounce_threshold (localPort dhtServers : Nat) (t : JobView) :
    (t.totalPeers = 10 → announceForTorrent localPort dhtServers t = [])
    ∧ (t.totalPeers ≤ 9 → announceForTorrent localPort dhtServers t =
        t.announceList.map (fun tier => AnnounceOp.trackerReq t.infoHash tier)
          ++ (List.range dhtServers).map
              (fun _ => AnnounceOp.dhtReq t.infoHash localPort))
    ∧ (∀ ts : List JobView, periodicAnnounceTick localPort dhtServers ts
        = (ts.map (announceForTorrent localPort dhtServers)).flatten) := by
  refine ⟨?_, ?_, ?_⟩
  · intro h; simp [announceForTorrent, h]
  · intro h
    have hlt : t.totalPeers < 10 := by omega
    simp [announceForTorrent, hlt]
  · intro ts
    simpa using foldl_append_blocks (announceForTorrent localPort dhtServers) ts []

/-- Witness for C7 at a descriptor with a two-tracker tier and a
one-tracker tier and one DHT server, sampled at 10 peers (no
re-announce), at 9 peers, and at 0 peers (both re-announce). -/
theorem periodicAnnounce_threshold_witness :
    announceForTorrent 6881 1
      { infoHash := "h", totalPeers := 10, announceList := [["a", "b"], ["c"]] } = []
    ∧ announceForTorrent 6881 1
        { infoHash := "h", totalPeers := 9, announceList := [["a", "b"], ["c"]] }
      = [AnnounceOp.trackerReq "h" ["a", "b"], AnnounceOp.trackerReq "h" ["c"],
         AnnounceOp.dhtReq "h" 6881]
    ∧ announceForTorrent 6881 1
        { infoHash := "h", totalPeers := 0, announceList := [["a", "b"], ["c"]] }
      = [AnnounceOp.trackerReq "h" ["a", "b"], AnnounceOp.trackerReq "h" ["c"],
         AnnounceOp.dhtReq "h" 6881] :=
  ⟨(periodicAnnounce_threshold 6881 1
      { infoHash := "h", totalPeers := 10, announceList := [["a", "b"], ["c"]] }).1 rfl,
   ((periodicAnnounce_threshold 6881 1
      { infoHash := "h", totalPeers := 9, announceList := [["a", "b"], ["c"]] }).2.1
        (by decide)).trans (by decide),
   ((periodicAnnounce_threshold 6881 1
      { infoHash := "h", totalPeers := 0, announceList := [["a", "b"], ["c"]] }).2.1
        (by decide)).trans (by decide)⟩

/-- Auxiliary invariant of the seedTorrent trace machine: the phase
determines the actions emitted so far. -/
theorem seedTrace_shape_aux :
    ∀ (tr : List Ev) (p : SeedPhase) (acc : List SeedAction),
      ((p = SeedPhase.waitingInfo ∧ acc = [])
        ∨ (p = SeedPhase.seeding
            ∧ acc = [SeedAction.downloadAllDirective, SeedAction.enterSeeding])
        ∨ (p = SeedPhase.finished
            ∧ acc = [SeedAction.downloadAllDirective, SeedAction.enterSeeding,
                     SeedAction.returned])) →
      (let r := tr.foldl
          (fun acc e => (seedStep acc.1 e, acc.2 ++ seedOut acc.1 e)) (p, acc)
       (r.1 = SeedPhase.waitingInfo ∧ r.2 = [])
        ∨ (r.1 = SeedPhase.seeding
            ∧ r.2 = [SeedAction.downloadAllDirective, SeedAction.enterSeeding])
        ∨ (r.1 = SeedPhase.finished
            ∧ r.2 = [SeedAction.downloadAllDirective, SeedAction.enterSeeding,
                     SeedAction.returned])) := by
  intro tr
  induction tr with
  | nil => intro p acc h; exact h
  | cons e rest ih =>
    intro p acc h
    rcases h with ⟨hp, ha⟩ | ⟨hp, ha⟩ | ⟨hp, ha⟩ <;> subst hp <;> subst ha <;>
      cases e <;> simp [List.foldl_cons, seedStep, seedOut] <;>
      first
      | exact ih _ _ (Or.inl ⟨rfl, rfl⟩)
      | exact ih _ _ (Or.inr (Or.inl ⟨rfl, rfl⟩))
      | exact ih _ _ (Or.inr (Or.inr ⟨rfl, rfl⟩))

/-- C9 amended: on every trace of engine events, the job emits the
download-all directive and enters Seeding at the same step, the step
at which metadata arrives; the transition does not wait for the
content to finish downloading (no event beyond gotInfo is required),
so a job can be counted as seeding with partial content. -/
theorem seedTorrent_directive_then_seeding (tr : List Ev) :
    ((seedTrace tr).1 = SeedPhase.waitingInfo ∧ (seedTrace tr).2 = [])
    ∨ ((seedTrace tr).1 = SeedPhase.seeding
        ∧ (seedTrace tr).2 = [SeedAction.downloadAllDirective,
                              SeedAction.enterSeeding])
    ∨ ((seedTrace tr).1 = SeedPhase.finished
        ∧ (seedTrace tr).2 = [SeedAction.downloadAllDirective,
                              SeedAction.enterSeeding, SeedAction.returned]) :=
  seedTrace_shape_aux tr SeedPhase.waitingInfo [] (Or.inl ⟨rfl, rfl⟩)

/-- C9 counterexample: a trace in which metadata arrives but the
content-complete event never occurs already has the job in the Seeding
phase: the full required content being downloaded is not a
precondition of Seeding in the code. -/
theorem seedTorrent_partial_content_seeding :
    seedRun [Ev.gotInfo] = SeedPhase.seeding
    ∧ Ev.contentComplete ∉ [Ev.gotInfo] := by
  decide

/-- A stopped periodic loop stays stopped. -/
theorem loopRun_from_false : ∀ tr : List Ev, tr.foldl loopStep false = false := by
  intro tr
  induction tr with
  | nil => rfl
  | cons e rest ih => cases e <;> simpa [loopStep] using ih

/-- A finished job task stays finished. -/
theorem seedRun_from_finished :
    ∀ tr : List Ev, tr.foldl seedStep SeedPhase.finished = SeedPhase.finished := by
  intro tr
  induction tr with
  | nil => rfl
  | cons e rest ih => cases e <;> simpa [seedStep] using ih

/-- C3 counterexample: a job task still waiting for metadata does not
observe cancellation.  On a trace in which the cancellation signal has
fired three times and metadata never arrives, seedTorrent is still
blocked in its metadata wait, not returned: the suspend point on
t.GotInfo() does not select on the cancellation signal. -/
theorem seedTorrent_ignores_cancellation :
    seedRun [Ev.ctxDone, Ev.ctxDone, Ev.ctxDone] = SeedPhase.waitingInfo
    ∧ SeedPhase.waitingInfo ≠ SeedPhase.finished := by
  decide

/-- C3 amended: after the cancellation signal fires, both periodic
loops observe it at their select and return, and a job task that has
already received metadata returns from its ctx.Done() wait; but the
metadata wait does not select on cancellation, so a job task whose
metadata never arrives remains blocked no matter how many events
(including cancellation) it observes. -/
theorem cancellation_observed_except_metadata_wait :
    (∀ tr : List Ev, Ev.ctxDone ∈ tr → loopRun tr = false)
    ∧ (∀ tr : List Ev, Ev.ctxDone ∈ tr →
        tr.foldl seedStep SeedPhase.seeding = SeedPhase.finished)
    ∧ (∀ tr : List Ev, (∀ e ∈ tr, e ≠ Ev.gotInfo) →
        seedRun tr = SeedPhase.waitingInfo) := by
  refine ⟨?_, ?_, ?_⟩
  · intro tr
    induction tr with
    | nil => intro h; cases h
    | cons e rest ih =>
      intro h
      cases e with
      | ctxDone => simpa [loopRun, loopStep] using loopRun_from_false rest
      | gotInfo =>
        have : Ev.ctxDone ∈ rest := by simpa using h
        simpa [loopRun, loopStep] using ih this
      | contentComplete =>
        have : Ev.ctxDone ∈ rest := by simpa using h
        simpa [loopRun, loopStep] using ih this
      | tick =>
        have : Ev.ctxDone ∈ rest := by simpa using h
        simpa [loopRun, loopStep] using ih this
  · intro tr
    induction tr with
    | nil => intro h; cases h
    | cons e rest ih =>
      intro h
      cases e with
      | ctxDone => simpa [seedStep] using seedRun_from_finished rest
      | gotInfo =>
        have : Ev.ctxDone ∈ rest := by simpa using h
        simpa [seedStep] using ih this
      | contentComplete =>
        have : Ev.ctxDone ∈ rest := by simpa using h
        simpa [seedStep] using ih this
      | tick =>
        have : Ev.ctxDone ∈ rest := by simpa using h
        simpa [seedStep] using ih this
  · intro tr
    induction tr with
    | nil => intro _; rfl
    | cons e rest ih =>
      intro h
      have he : e ≠ Ev.gotInfo := h e (List.mem_cons_self e rest)
      have hr : ∀ e2 ∈ rest, e2 ≠ Ev.gotInfo :=
        fun e2 hm => h e2 (List.mem_cons_of_mem e hm)
      cases e with
      | gotInfo => exact absurd rfl he
      | contentComplete => simpa [seedRun, seedStep] using ih hr
      | tick => simpa [seedRun, seedStep] using ih hr
      | ctxDone => simpa [seedRun, seedStep] using ih hr

/-- Witness for C3 amended: a loop trace and a post-metadata job trace
containing cancellation, and a metadata-free trace for the blocked
wait. -/
theorem cancellation_observed_except_metadata_wait_witness :
    loopRun [Ev.tick, Ev.ctxDone] = false
    ∧ [Ev.ctxDone].foldl seedStep SeedPhase.seeding = SeedPhase.finished
    ∧ seedRun [Ev.ctxDone, Ev.tick] = SeedPhase.waitingInfo :=
  ⟨cancellation_observed_except_metadata_wait.1 _ (by decide),
   cancellation_observed_except_metadata_wait.2.1 _ (by decide),
   cancellation_observed_except_metadata_wait.2.2 _ (by decide)⟩

/-- Accumulator form of a loop that appends one output element per
input element and never exits early. -/
theorem foldl_append_one {α β : Type} (f : α → β) :
    ∀ (l : List α) (acc : List β),
      l.foldl (fun a x => a ++ [f x]) acc = acc ++ l.map f := by
  intro l
  induction l with
  | nil => intro acc; simp
  | cons x xs ih =>
    intro acc
    simp [List.foldl_cons, ih, List.append_assoc]

/-- C4: processTorrents handles every configured URL independently.
The loop result is exactly the per-URL handling mapped over the list
(no URL is skipped and no failure aborts the loop or the process); a
magnet source whose engine add fails, and a non-magnet source whose
acquisition fails (network failure, non-2xx body failing the metainfo
load, write failure, malformed descriptor, or engine rejection, all of
which surface as an addTorrent error), are logged and dropped; and the
handling of every other URL is unchanged by what the failing URL's
acquisition returned. -/
theorem processTorrents_isolates_failures
    (magnetAdd torrentAdd : String → AddOutcome) (urls : List String) :
    processTorrents magnetAdd torrentAdd urls
      = urls.map (handleURL magnetAdd torrentAdd)
    ∧ (∀ url msg, strStarts url "magnet:?" = true →
        magnetAdd url = AddOutcome.engineError msg →
        handleURL magnetAdd torrentAdd url = JobEvent.loggedError url msg)
    ∧ (∀ url msg, strStarts url "magnet:?" = false →
        torrentAdd url = AddOutcome.engineError msg →
        handleURL magnetAdd torrentAdd url = JobEvent.loggedError url msg)
    ∧ (∀ (magnetAddB torrentAddB : String → AddOutcome) (u : String),
        (∀ v, v ≠ u → magnetAdd v = magnetAddB v) →
        (∀ v, v ≠ u → torrentAdd v = torrentAddB v) →
        (urls.filter (fun v => v != u)).map (handleURL magnetAdd torrentAdd)
          = (urls.filter (fun v => v != u)).map (handleURL magnetAddB torrentAddB)) := by
  refine ⟨?_, ?_, ?_, ?_⟩
  · simpa [processTorrents] using
      foldl_append_one (handleURL magnetAdd torrentAdd) urls []
  · intro url msg hmag houtcome
    simp [handleURL, hmag, houtcome]
  · intro url msg hmag houtcome
    simp [handleURL, hmag, houtcome]
  · intro mb tb u hm ht
    apply List.map_congr_left
    intro v hv
    have hvu : v ≠ u := by
      have := (List.mem_filter.mp hv).2
      simpa using this
    unfold handleURL
    rw [hm v hvu, ht v hvu]

/-- Witness for C4: two sources, a magnet link whose engine add fails
and a plain URL that succeeds; the magnet failure is logged and
dropped while the other job starts seeding. -/
theorem processTorrents_isolates_failures_witness :
    processTorrents
        (fun _ => AddOutcome.engineError "em")
        (fun u => if u = "u" then AddOutcome.engineError "et"
                  else AddOutcome.addedJob "t")
        ["magnet:?x", "u", "v"]
      = ["magnet:?x", "u", "v"].map
          (handleURL (fun _ => AddOutcome.engineError "em")
            (fun u => if u = "u" then AddOutcome.engineError "et"
                      else AddOutcome.addedJob "t"))
    ∧ handleURL (fun _ => AddOutcome.engineError "em")
        (fun u => if u = "u" then AddOutcome.engineError "et"
                  else AddOutcome.addedJob "t") "magnet:?x"
      = JobEvent.loggedError "magnet:?x" "em"
    ∧ handleURL (fun _ => AddOutcome.engineError "em")
        (fun u => if u = "u" then AddOutcome.engineError "et"
                  else AddOutcome.addedJob "t") "u"
      = JobEvent.loggedError "u" "et"
    ∧ (["magnet:?x", "u", "v"].filter (fun v => v != "u")).map
        (handleURL (fun _ => AddOutcome.engineError "em")
          (fun u => if u = "u" then AddOutcome.engineError "et"
                    else AddOutcome.addedJob "t"))
      = (["magnet:?x", "u", "v"].filter (fun v => v != "u")).map
          (handleURL (fun _ => AddOutcome.engineError "em")
            (fun _ => AddOutcome.addedJob "t")) := by
  have h := processTorrents_isolates_failures
    (fun _ => AddOutcome.engineError "em")
    (fun u => if u = "u" then AddOutcome.engineError "et"
              else AddOutcome.addedJob "t")
    ["magnet:?x", "u", "v"]
  refine ⟨h.1, h.2.1 "magnet:?x" "em" (by decide) rfl,
          h.2.2.1 "u" "et" (by decide) (by decide), ?_⟩
  exact h.2.2.2 (fun _ => AddOutcome.engineError "em")
    (fun _ => AddOutcome.addedJob "t") "u"
    (fun v _ => rfl)
    (fun v hv => by simp [hv])

/-- A file just written is found by the existence check. -/
theorem lookupFS_insertFS (fs : List (String × String)) (p v : String) :
    lookupFS (insertFS fs p v) p = some v := by
  simp [lookupFS, insertFS, List.find?]

/-- C6: acquiring the same URL-sourced job twice in one run performs
exactly one network fetch.  Starting from a world in which the cache
file is absent and the fetch succeeds with some body, the first
addTorrent fetches and caches the body; the second finds the cache
file (checked before any fetch), fetches nothing, and the descriptor
content it loads is the first fetch's body byte for byte. -/
theorem addTorrent_cache_single_fetch
    (httpGet parseMeta engineAccept : String → Option String)
    (w : AcqWorld) (downloadDir url body : String)
    (hmiss : lookupFS w.fs (filepathJoin downloadDir (filepathBase url)) = none)
    (hhttp : httpGet url = some body) :
    (addTorrent httpGet parseMeta engineAccept
        (addTorrent httpGet parseMeta engineAccept w downloadDir url).1
        downloadDir url).1.fetchLog = w.fetchLog ++ [url]
    ∧ (addTorrent httpGet parseMeta engineAccept
        (addTorrent httpGet parseMeta engineAccept w downloadDir url).1
        downloadDir url).1.readLog = w.readLog ++ [body, body]
    ∧ lookupFS (addTorrent httpGet parseMeta engineAccept
        (addTorrent httpGet parseMeta engineAccept w downloadDir url).1
        downloadDir url).1.fs
        (filepathJoin downloadDir (filepathBase url)) = some body := by
  have h1 : (addTorrent httpGet parseMeta engineAccept w downloadDir url).1
      = { fs := insertFS w.fs (filepathJoin downloadDir (filepathBase url)) body
          fetchLog := w.fetchLog ++ [url]
          readLog := w.readLog ++ [body] } := by
    simp [addTorrent, hmiss, hhttp]
  rw [h1]
  simp [addTorrent, lookupFS_insertFS]

/-- Witness for C6 at a concrete world: empty cache, one URL, a fetch
oracle returning the body DESC. -/
theorem addTorrent_cache_single_fetch_witness :
    (addTorrent (fun u => if u = "http://host/f.torrent" then some "DESC" else none)
        (fun c => if c = "DESC" then some "meta" else none)
        (fun m => some m)
        (addTorrent
          (fun u => if u = "http://host/f.torrent" then some "DESC" else none)
          (fun c => if c = "DESC" then some "meta" else none)
          (fun m => some m)
          { fs := [], fetchLog := [], readLog := [] }
          "downloads" "http://host/f.torrent").1
        "downloads" "http://host/f.torrent").1.fetchLog
      = [] ++ ["http://host/f.torrent"]
    ∧ (addTorrent (fun u => if u = "http://host/f.torrent" then some "DESC" else none)
        (fun c => if c = "DESC" then some "meta" else none)
        (fun m => some m)
        (addTorrent
          (fun u => if u = "http://host/f.torrent" then some "DESC" else none)
          (fun c => if c = "DESC" then some "meta" else none)
          (fun m => some m)
          { fs := [], fetchLog := [], readLog := [] }
          "downloads" "http://host/f.torrent").1
        "downloads" "http://host/f.torrent").1.readLog
      = [] ++ ["DESC", "DESC"]
    ∧ lookupFS (addTorrent
        (fun u => if u = "http://host/f.torrent" then some "DESC" else none)
        (fun c => if c = "DESC" then some "meta" else none)
        (fun m => some m)
        (addTorrent
          (fun u => if u = "http://host/f.torrent" then some "DESC" else none)
          (fun c => if c = "DESC" then some "meta" else none)
          (fun m => some m)
          { fs := [], fetchLog := [], readLog := [] }
          "downloads" "http://host/f.torrent").1
        "downloads" "http://host/f.torrent").1.fs
        (filepathJoin "downloads" (filepathBase "http://host/f.torrent"))
      = some "DESC" :=
  addTorrent_cache_single_fetch
    (fun u => if u = "http://host/f.torrent" then some "DESC" else none)
    (fun c => if c = "DESC" then some "meta" else none)
    (fun m => some m)
    { fs := [], fetchLog := [], readLog := [] }
    "downloads" "http://host/f.torrent" "DESC"
    (by decide) (by decide)

/-- C10: the cache key is only the final path segment of the locator.
For two distinct URLs sharing the same final path segment, with the
cache initially cold and the first fetch succeeding, acquiring the
first and then the second performs exactly one fetch (of the first
URL): the second acquisition fetches nothing and the descriptor
content it loads is the first URL's body, whatever the second URL
would have served. -/
theorem addTorrent_cache_key_collision
    (httpGet parseMeta engineAccept : String → Option String)
    (w : AcqWorld) (downloadDir url1 url2 body1 : String)
    (hne : url1 ≠ url2)
    (hbase : filepathBase url1 = filepathBase url2)
    (hmiss : lookupFS w.fs (filepathJoin downloadDir (filepathBase url1)) = none)
    (hhttp : httpGet url1 = some body1) :
    (addTorrent httpGet parseMeta engineAccept
        (addTorrent httpGet parseMeta engineAccept w downloadDir url1).1
        downloadDir url2).1.fetchLog = w.fetchLog ++ [url1]
    ∧ (addTorrent httpGet parseMeta engineAccept
        (addTorrent httpGet parseMeta engineAccept w downloadDir url1).1
        downloadDir url2).1.readLog = w.readLog ++ [body1, body1] := by
  have h1 : (addTorrent httpGet parseMeta engineAccept w downloadDir url1).1
      = { fs := insertFS w.fs (filepathJoin downloadDir (filepathBase url1)) body1
          fetchLog := w.fetchLog ++ [url1]
          readLog := w.readLog ++ [body1] } := by
    simp [addTorrent, hmiss, hhttp]
  rw [h1]
  have h2 : filepathJoin downloadDir (filepathBase url2)
      = filepathJoin downloadDir (filepathBase url1) := by rw [hbase]
  simp [addTorrent, h2, lookupFS_insertFS]

/-- Witness for C10: two URLs on different hosts sharing the final
segment f.torrent; the fetch oracle would serve different bodies, yet
the second acquisition is served the first body from the cache. -/
theorem addTorrent_cache_key_collision_witness :
    (addTorrent (fun u => if u = "http://a/x/f.torrent" then some "A" else some "B")
        (fun _ => some "meta") (fun m => some m)
        (addTorrent
          (fun u => if u = "http://a/x/f.torrent" then some "A" else some "B")
          (fun _ => some "meta") (fun m => some m)
          { fs := [], fetchLog := [], readLog := [] }
          "downloads" "http://a/x/f.torrent").1
        "downloads" "http://b/y/f.torrent").1.fetchLog
      = [] ++ ["http://a/x/f.torrent"]
    ∧ (addTorrent (fun u => if u = "http://a/x/f.torrent" then some "A" else some "B")
        (fun _ => some "meta") (fun m => some m)
        (addTorrent
          (fun u => if u = "http://a/x/f.torrent" then some "A" else some "B")
          (fun _ => some "meta") (fun m => some m)
          { fs := [], fetchLog := [], readLog := [] }
          "downloads" "http://a/x/f.torrent").1
        "downloads" "http://b/y/f.torrent").1.readLog
      = [] ++ ["A", "A"] :=
  addTorrent_cache_key_collision
    (fun u => if u = "http://a/x/f.torrent" then some "A" else some "B")
    (fun _ => some "meta") (fun m => some m)
    { fs := [], fetchLog := [], readLog := [] }
    "downloads" "http://a/x/f.torrent" "http://b/y/f.torrent" "A"
    (by decide) (by decide) (by decide) (by decide)

/-- Reading an association map through a new head binding: the bound
key reads the new value, any other key reads through. -/
theorem mapGet_cons (t : String × Int) (m : List (String × Int)) (k : String) :
    mapGet (t :: m) k = if k = t.1 then t.2 else mapGet m k := by
  by_cases h : k = t.1
  · subst h; simp [mapGet, List.find?]
  · have hb : (t.1 == k) = false := by
      simp [beq_iff_eq]
      exact fun hh => h hh.symm
    simp [mapGet, List.find?, hb, h]

/-- mapGet after mapPut. -/
theorem mapGet_mapPut (m : List (String × Int)) (k k2 : String) (v : Int) :
    mapGet (mapPut m k v) k2 = if k2 = k then v else mapGet m k2 :=
  mapGet_cons (k, v) m k2

/-- mapGetSum only depends on the values read at the listed keys. -/
theorem mapGetSum_congr (m1 m2 : List (String × Int)) (hs : List String)
    (h : ∀ k ∈ hs, mapGet m1 k = mapGet m2 k) :
    mapGetSum m1 hs = mapGetSum m2 hs := by
  unfold mapGetSum
  exact congrArg List.sum (List.map_congr_left h)

/-- mapGetSum over the empty map is zero. -/
theorem mapGetSum_empty (hs : List String) : mapGetSum [] hs = 0 := by
  induction hs with
  | nil => rfl
  | cons k rest ih => simp [mapGetSum] at ih ⊢; simpa [mapGet] using ih

/-- mapGetSum distributes over a key cons. -/
theorem mapGetSum_cons (m : List (String × Int)) (k : String) (hs : List String) :
    mapGetSum m (k :: hs) = mapGet m k + mapGetSum m hs := by
  simp [mapGetSum]

/-- sumCounters distributes over a torrent cons. -/
theorem sumCounters_cons (t : String × Int) (L : List (String × Int)) :
    sumCounters (t :: L) = t.2 + sumCounters L := by
  simp [sumCounters]

/-- An association list with distinct keys, summed over exactly its own
keys, yields the sum of its values. -/
theorem mapGetSum_keys_self :
    ∀ L : List (String × Int), (L.map Prod.fst).Nodup →
      mapGetSum L (L.map Prod.fst) = sumCounters L := by
  intro L
  induction L with
  | nil => intro _; rfl
  | cons t rest ih =>
    intro hnd
    have ht : t.1 ∉ rest.map Prod.fst := (List.nodup_cons.mp hnd).1
    have hnd2 : (rest.map Prod.fst).Nodup := (List.nodup_cons.mp hnd).2
    have hcongr : mapGetSum (t :: rest) (rest.map Prod.fst)
        = mapGetSum rest (rest.map Prod.fst) := by
      apply mapGetSum_congr
      intro k hk
      have hkt : k ≠ t.1 := fun hh => ht (hh ▸ hk)
      rw [mapGet_cons, if_neg hkt]
    rw [List.map_cons, mapGetSum_cons, hcongr, ih hnd2,
      mapGet_cons, if_pos rfl, sumCounters_cons]

/-- Characterization of the delta-tracking loop body (sessionFold) for
a tick whose torrents have distinct info-hashes: the accumulated
session upload is the counters' sum minus the recorded baselines' sum,
and afterwards the baseline map holds the tick's counters for the
tick's hashes and is unchanged elsewhere. -/
theorem sessionFold_spec :
    ∀ (L : List (String × Int)), (L.map Prod.fst).Nodup →
      ∀ (s : Int) (m : List (String × Int)),
      (sessionFold L (s, m)).1
          = s + sumCounters L - mapGetSum m (L.map Prod.fst)
      ∧ (∀ k, mapGet (sessionFold L (s, m)).2 k
          = if k ∈ L.map Prod.fst then mapGet L k else mapGet m k) := by
  intro L
  induction L with
  | nil =>
    intro _ s m
    constructor
    · simp [sessionFold, sumCounters, mapGetSum]
    · intro k; simp [sessionFold]
  | cons t rest ih =>
    intro hnd s m
    have ht : t.1 ∉ rest.map Prod.fst := (List.nodup_cons.mp hnd).1
    have hnd2 : (rest.map Prod.fst).Nodup := (List.nodup_cons.mp hnd).2
    have hstep : sessionFold (t :: rest) (s, m)
        = sessionFold rest (s + (t.2 - mapGet m t.1), mapPut m t.1 t.2) := rfl
    have IH := ih hnd2 (s + (t.2 - mapGet m t.1)) (mapPut m t.1 t.2)
    have hput : mapGetSum (mapPut m t.1 t.2) (rest.map Prod.fst)
        = mapGetSum m (rest.map Prod.fst) := by
      apply mapGetSum_congr
      intro k hk
      have hkt : k ≠ t.1 := fun hh => ht (hh ▸ hk)
      rw [mapGet_mapPut, if_neg hkt]
    constructor
    · rw [hstep, IH.1, hput, List.map_cons, sumCounters_cons, mapGetSum_cons]
      ring
    · intro k
      rw [hstep, IH.2 k]
      simp only [List.map_cons]
      by_cases hk : k ∈ rest.map Prod.fst
      · have hkt : k ≠ t.1 := fun hh => ht (hh ▸ hk)
        have hmem : k ∈ t.1 :: rest.map Prod.fst := List.mem_cons_of_mem t.1 hk
        rw [if_pos hk, if_pos hmem, mapGet_cons, if_neg hkt]
      · by_cases hk2 : k = t.1
        · subst hk2
          have hmem : t.1 ∈ t.1 :: rest.map Prod.fst := List.mem_cons_self t.1 _
          rw [if_neg hk, if_pos hmem, mapGet_mapPut, if_pos rfl,
            mapGet_cons, if_pos rfl]
        · have hmem : k ∉ t.1 :: rest.map Prod.fst := by
            intro hmem
            rcases List.mem_cons.mp hmem with h | h
            · exact hk2 h
            · exact hk h
          rw [if_neg hk, if_neg hmem, mapGet_mapPut, if_neg hk2]

/-- One delta-tracking flush tick, from any ledger state satisfying the
accounting invariant (in-memory total = the start-of-run baseline T
plus the recorded baseline sum): the new total is exactly T plus this
tick's session counters, the invariant is preserved, and a successful
write persists exactly that value. -/
theorem logCurrentTorrentStatusV2_tick (hs : List String) (hnd : hs.Nodup)
    (L : List (String × Int)) (hL : L.map Prod.fst = hs)
    (st : LedgerV2) (wo : WriteOutcome) (T : Int)
    (hinv : st.totalUploaded = T + mapGetSum st.previousUploads hs) :
    (logCurrentTorrentStatusV2 L st wo).totalUploaded = T + sumCounters L
    ∧ (logCurrentTorrentStatusV2 L st wo).totalUploaded
        = T + mapGetSum (logCurrentTorrentStatusV2 L st wo).previousUploads hs
    ∧ (wo = WriteOutcome.ok →
        (logCurrentTorrentStatusV2 L st wo).statsFile
          = some (toString (T + sumCounters L))) := by
  have hndL : (L.map Prod.fst).Nodup := by rw [hL]; exact hnd
  have hsf := sessionFold_spec L hndL 0 st.previousUploads
  have htot : (logCurrentTorrentStatusV2 L st wo).totalUploaded
      = T + sumCounters L := by
    show st.totalUploaded + (sessionFold L (0, st.previousUploads)).1
      = T + sumCounters L
    rw [hsf.1, hL, hinv]
    ring
  refine ⟨htot, ?_, ?_⟩
  · have hprev : mapGetSum (logCurrentTorrentStatusV2 L st wo).previousUploads hs
        = sumCounters L := by
      show mapGetSum (sessionFold L (0, st.previousUploads)).2 hs = sumCounters L
      have hread : ∀ k ∈ hs, mapGet (sessionFold L (0, st.previousUploads)).2 k
          = mapGet L k := by
        intro k hk
        have hkL : k ∈ L.map Prod.fst := by rw [hL]; exact hk
        rw [hsf.2 k, if_pos hkL]
      calc mapGetSum (sessionFold L (0, st.previousUploads)).2 hs
          = mapGetSum L hs := mapGetSum_congr _ _ hs hread
        _ = mapGetSum L (L.map Prod.fst) := by rw [hL]
        _ = sumCounters L := mapGetSum_keys_self L hndL
    rw [htot, hprev]
  · intro hwo
    subst hwo
    show writeStatsFile st.statsFile
        (st.totalUploaded + (sessionFold L (0, st.previousUploads)).1)
        WriteOutcome.ok = some (toString (T + sumCounters L))
    have : st.totalUploaded + (sessionFold L (0, st.previousUploads)).1
        = T + sumCounters L := htot
    rw [this]
    rfl

/-- The accounting invariant holds along any run of delta-tracking
flush ticks over a fixed job set. -/
theorem foldV2_inv (hs : List String) (hnd : hs.Nodup) (T : Int) :
    ∀ (ticks : List (List (String × Int))) (st : LedgerV2),
      (∀ M ∈ ticks, M.map Prod.fst = hs) →
      st.totalUploaded = T + mapGetSum st.previousUploads hs →
      (ticks.foldl (fun st2 L => logCurrentTorrentStatusV2 L st2 WriteOutcome.ok)
          st).totalUploaded
        = T + mapGetSum
            (ticks.foldl (fun st2 L => logCurrentTorrentStatusV2 L st2 WriteOutcome.ok)
              st).previousUploads hs := by
  intro ticks
  induction ticks with
  | nil => intro st _ hinv; exact hinv
  | cons M rest ih =>
    intro st hM hinv
    have hM1 : M.map Prod.fst = hs := hM M (List.mem_cons_self M rest)
    have h := logCurrentTorrentStatusV2_tick hs hnd M hM1 st WriteOutcome.ok T hinv
    exact ih _ (fun M2 hm => hM M2 (List.mem_cons_of_mem M hm)) h.2.1

/-- C1 amended (delta-tracking variant): starting from a persisted
total T read once at process start, after any run of flush ticks over
a fixed set of jobs, a flush tick whose engine-reported session
counters sum to U = sumCounters L persists exactly T + U: nothing is
lost across the restart and no session byte is counted twice. -/
theorem deltaFlush_persists_exactly (hs : List String) (hnd : hs.Nodup)
    (ticks : List (List (String × Int))) (L : List (String × Int))
    (T : Int) (f0 : Option String)
    (hticks : ∀ M ∈ ticks, M.map Prod.fst = hs)
    (hL : L.map Prod.fst = hs) :
    (logCurrentTorrentStatusV2 L (runV2 T f0 ticks) WriteOutcome.ok).totalUploaded
      = T + sumCounters L
    ∧ (logCurrentTorrentStatusV2 L (runV2 T f0 ticks) WriteOutcome.ok).statsFile
      = some (toString (T + sumCounters L)) := by
  have hinv0 : (LedgerV2.mk T [] f0).totalUploaded
      = T + mapGetSum (LedgerV2.mk T [] f0).previousUploads hs := by
    show T = T + mapGetSum [] hs
    rw [mapGetSum_empty]
    ring
  have hinv : (runV2 T f0 ticks).totalUploaded
      = T + mapGetSum (runV2 T f0 ticks).previousUploads hs :=
    foldV2_inv hs hnd T ticks (LedgerV2.mk T [] f0) hticks hinv0
  have h := logCurrentTorrentStatusV2_tick hs hnd L hL (runV2 T f0 ticks)
    WriteOutcome.ok T hinv
  exact ⟨h.1, h.2.2 rfl⟩

/-- Witness for C1 amended: two jobs, baseline 100 persisted before the
restart, one earlier tick (counters 3 and 4), then a flush tick with
session counters 10 and 11: the flush persists exactly 100 + 21. -/
theorem deltaFlush_persists_exactly_witness :
    (logCurrentTorrentStatusV2 [("h1", 10), ("h2", 11)]
        (runV2 100 (some "100") [[("h1", 3), ("h2", 4)]])
        WriteOutcome.ok).totalUploaded
      = 100 + sumCounters [("h1", 10), ("h2", 11)]
    ∧ (logCurrentTorrentStatusV2 [("h1", 10), ("h2", 11)]
        (runV2 100 (some "100") [[("h1", 3), ("h2", 4)]])
        WriteOutcome.ok).statsFile
      = some (toString (100 + sumCounters [("h1", 10), ("h2", 11)])) :=
  deltaFlush_persists_exactly ["h1", "h2"] (by decide)
    [[("h1", 3), ("h2", 4)]] [("h1", 10), ("h2", 11)] 100 (some "100")
    (by decide) (by decide)

/-- C1 counterexample (re-read variant): with the persisted total T
equal to 10 at process start and one job whose session counter is 5 at
two consecutive flush ticks (so the session counters sum to U = 5 at
the second tick), the re-read variant of logCurrentTorrentStatus
persists 20, not T + U = 15: the 5 session bytes already persisted by
the first tick are added a second time. -/
theorem logCurrentTorrentStatusV3_double_counts :
    logCurrentTorrentStatusV3 [("h", 5)]
        (logCurrentTorrentStatusV3 [("h", 5)] (some "10") WriteOutcome.ok)
        WriteOutcome.ok = some "20"
    ∧ readTotalUploaded (some "10") + sumCounters [("h", 5)] = 15
    ∧ some "20" ≠ some (toString (15 : Int)) := by
  decide

end DistroSeed
